import Mathlib

/-!
Shallow embedding of the quantization utilities declared in
src/include/fbgemm/QuantUtils.h (namespace fbgemm).

Conventions of the embedding:
* C++ machine integers are embedded as `ℤ`; where the source narrows a wider
  value into `std::int32_t` / `std::int64_t` / `std::size_t`, the wrap-around of
  that conversion is made explicit by `toInt32` / `toInt64` / `toSizeT`.
* `float` values are embedded as `ℚ`, i.e. floating-point products, quotients
  and sums are modelled as exact rational arithmetic.  `std::nearbyint` and
  `std::lrintf` round to the nearest integer in the default rounding mode
  FE_TONEAREST, which breaks ties to even; both are embedded as
  `roundHalfEven`.
* The C++ functions are templates over the value type `T` (and `T1`, `T2` for
  `clamp`).  The embedding works with the mathematical integer value; the final
  narrowing conversion to `T`, which is the identity whenever `T` can represent
  the clamped result, is not repeated.  `Dequantize32` additionally models the
  variant of the `Dequantize` subtraction that is evaluated in 32-bit integer
  arithmetic.
* Output buffers of the bulk loops are embedded as total functions `ℕ → ℚ`;
  the loop returns the updated function.
-/

/-- Conversion of a (wider) integer value into `std::int32_t`: reduce modulo
`2^32` into the interval `[-2^31, 2^31)`.  In C++ this narrowing conversion is
implementation-defined before C++20; the embedding uses the universal
two's-complement behaviour acknowledged by the source's
`no_sanitize("signed-integer-overflow")` annotation. -/
def toInt32 (n : ℤ) : ℤ := (n + 2 ^ 31) % 2 ^ 32 - 2 ^ 31

/-- Conversion of an integer value into `std::int64_t`: reduce modulo `2^64`
into the interval `[-2^63, 2^63)`. -/
def toInt64 (n : ℤ) : ℤ := (n + 2 ^ 63) % 2 ^ 64 - 2 ^ 63

/-- Conversion of a signed `int` value into `std::size_t` (64-bit unsigned), as
performed by the comparison `i < len` in the bulk `Dequantize` loop, where `i`
has type `std::size_t` and `len` has type `int`. -/
def toSizeT (n : ℤ) : ℕ := (n % 2 ^ 64).toNat

/-- QuantUtils.h, `clamp<T1, T2>(T1 src, int precision, bool is_signed)`:
`min` and `max` are computed with 64-bit shifts but stored into `std::int32_t`
locals (hence `toInt32`), then the value is clamped with `std::min<T1>` /
`std::max<T1>`.  The embedding takes `T1` wide enough for `src` (the in-tree
callers instantiate `T1 = std::int64_t` or `T1 = long`); the final conversion
to `T2` is the identity under the function's representability preconditions. -/
def clamp (src : ℤ) (precision : ℕ) (is_signed : Bool) : ℤ :=
  let mn : ℤ := toInt32 (if is_signed then -(2 ^ (precision - 1)) else 0)
  let mx : ℤ :=
    toInt32 (if is_signed then 2 ^ (precision - 1) - 1 else 2 ^ precision - 1)
  min (max src mn) mx

/-- The mathematical lower bound `is_signed ? -2^(precision-1) : 0` of the
target range, as stated by the specification (no int32 truncation). -/
def loBound (precision : ℕ) (is_signed : Bool) : ℤ :=
  if is_signed then -(2 ^ (precision - 1)) else 0

/-- The mathematical upper bound
`is_signed ? 2^(precision-1) - 1 : 2^precision - 1` of the target range, as
stated by the specification (no int32 truncation). -/
def hiBound (precision : ℕ) (is_signed : Bool) : ℤ :=
  if is_signed then 2 ^ (precision - 1) - 1 else 2 ^ precision - 1

/-- QuantUtils.h, `struct TensorQuantizationParams`. -/
structure TensorQuantizationParams where
  scale : ℚ
  zero_point : ℤ
  precision : ℕ

/-- QuantUtils.h, `struct RequantizationParams`. -/
structure RequantizationParams where
  real_multiplier : ℚ
  multiplier : ℤ
  right_shift : ℕ
  target_qparams : TensorQuantizationParams

/-- Rounding of a real value to the nearest integer, ties to even: the
behaviour of `std::nearbyint` and `std::lrintf` in the default floating-point
rounding mode FE_TONEAREST. -/
def roundHalfEven (q : ℚ) : ℤ :=
  if q - ⌊q⌋ < 1 / 2 then ⌊q⌋
  else if 1 / 2 < q - ⌊q⌋ then ⌊q⌋ + 1
  else if ⌊q⌋ % 2 = 0 then ⌊q⌋ else ⌊q⌋ + 1

/-- Rounding of a real value to the nearest integer, ties away from zero: the
rounding rule the specification ascribes to the real-multiplier `Requantize`
path. -/
def roundHalfAway (q : ℚ) : ℤ :=
  if q - ⌊q⌋ < 1 / 2 then ⌊q⌋
  else if 1 / 2 < q - ⌊q⌋ then ⌊q⌋ + 1
  else if q < 0 then ⌊q⌋ else ⌊q⌋ + 1

/-- QuantUtils.h, `Quantize<T>(float src, int32 zero_point, float scale, int
result_precision, bool result_is_signed)`:
`transformed_val = zero_point + src / scale`, then
`clamp<int64_t, T>(nearbyint(transformed_val), result_precision,
result_is_signed)`.  In the C++ template the trailing flag defaults to
`std::is_signed<T>::value`; here it is always passed explicitly. -/
def Quantize (src : ℚ) (zero_point : ℤ) (scale : ℚ) (result_precision : ℕ)
    (result_is_signed : Bool) : ℤ :=
  let transformed_val : ℚ := zero_point + src / scale
  clamp (roundHalfEven transformed_val) result_precision result_is_signed

/-- QuantUtils.h, scalar `Dequantize<T>(T src, TensorQuantizationParams)`:
`scale * (src - zero_point)`.  The subtraction happens in integer arithmetic
and is embedded exactly, which models every `T` whose promoted 32-bit
subtraction cannot wrap; `Dequantize32` models the 32-bit evaluation
explicitly. -/
def Dequantize (src : ℤ) (qparams : TensorQuantizationParams) : ℚ :=
  qparams.scale * ((src - qparams.zero_point : ℤ) : ℚ)

/-- The subtraction `src - zero_point` of scalar `Dequantize` as evaluated in
32-bit signed integer arithmetic (the case `T = std::int32_t`, where no
integer promotion widens the operands). -/
def sub32 (a b : ℤ) : ℤ := toInt32 (a - b)

/-- Scalar `Dequantize` with the subtraction evaluated in 32-bit integer
arithmetic: `scale * toInt32(src - zero_point)`. -/
def Dequantize32 (src : ℤ) (qparams : TensorQuantizationParams) : ℚ :=
  qparams.scale * ((sub32 src qparams.zero_point : ℤ) : ℚ)

/-- QuantUtils.h, the loop body of bulk `Dequantize<T>(const T* src, float*
dst, int len, ...)`: iterate `i` from `i₀` up to `bound`, storing
`Dequantize(src[i], qparams)` into `dst[i]`. -/
def dequantizeBulkAux (src : ℕ → ℤ) (qparams : TensorQuantizationParams)
    (bound : ℕ) (i : ℕ) (dst : ℕ → ℚ) : ℕ → ℚ :=
  if i < bound then
    dequantizeBulkAux src qparams bound (i + 1)
      (fun j => if j = i then Dequantize (src i) qparams else dst j)
  else dst
termination_by bound - i

/-- QuantUtils.h, bulk `Dequantize<T>`: `for (size_t i = 0; i < len; i++)
dst[i] = Dequantize(src[i], qparams);`.  The guard compares the `size_t`
counter `i` with the `int` argument `len`, converting `len` to `size_t`
(`toSizeT`). -/
def DequantizeBulk (src : ℕ → ℤ) (dst : ℕ → ℚ) (len : ℤ)
    (qparams : TensorQuantizationParams) : ℕ → ℚ :=
  dequantizeBulkAux src qparams (toSizeT len) 0 dst

/-- Modelled from the spec: `TensorQuantizationParams::Min()` is only declared
in QuantUtils.h; its body lives in QuantUtils.cc, which is not under src/.
Per spec section 8, the boundary codes of the representable range dequantize
back to `Min()`/`Max()`, so `Min()` is the dequantized lowest representable
code of the precision/signedness in use. -/
def QParamsMin (qparams : TensorQuantizationParams) (is_signed : Bool) : ℚ :=
  Dequantize (loBound qparams.precision is_signed) qparams

/-- Modelled from the spec: `TensorQuantizationParams::Max()` (see
`QParamsMin`), the dequantized highest representable code. -/
def QParamsMax (qparams : TensorQuantizationParams) (is_signed : Bool) : ℚ :=
  Dequantize (hiBound qparams.precision is_signed) qparams

/-- Modelled from the spec: `SaturatingRoundingMulWithShift` is only declared
in QuantUtils.h; its body lives in QuantUtils.cc, which is not under src/.
Spec section 4.5: take the 64-bit product `a * b`; if `right_shift` is zero
return the product unmodified; otherwise add a rounding bias of
`2^(right_shift-1)` and shift right by `right_shift` (an arithmetic shift of
a signed 64-bit value, i.e. floor division by `2^right_shift`); the single
input pair `a = b = INT32_MIN` saturates to the maximum representable
positive 64-bit value instead of overflowing. -/
def SaturatingRoundingMulWithShift (a b : ℤ) (right_shift : ℕ) : ℤ :=
  if a = -(2 ^ 31) ∧ b = -(2 ^ 31) then 2 ^ 63 - 1
  else if right_shift = 0 then a * b
  else (a * b + 2 ^ (right_shift - 1)) / 2 ^ right_shift

/-- QuantUtils.h, fixed-point `Requantize<T>(int32 src, int32 zero_point,
int32 multiplier, int right_shift, int result_precision, bool
result_is_signed)`: the sum `zero_point + SaturatingRoundingMulWithShift(...)`
is stored in a `std::int64_t` (hence `toInt64`), then clamped.  In the C++
template `result_is_signed` defaults to `false`; here it is always passed
explicitly. -/
def Requantize (src : ℤ) (zero_point : ℤ) (multiplier : ℤ) (right_shift : ℕ)
    (result_precision : ℕ) (result_is_signed : Bool) : ℤ :=
  let quantized_down : ℤ :=
    toInt64 (zero_point + SaturatingRoundingMulWithShift src multiplier right_shift)
  clamp quantized_down result_precision result_is_signed

/-- QuantUtils.h, `RequantizeFixedPoint<T>(int32 src, RequantizationParams)`:
forwards to the fixed-point `Requantize` without passing `result_is_signed`,
so the `false` default applies regardless of `T`. -/
def RequantizeFixedPoint (src : ℤ) (params : RequantizationParams) : ℤ :=
  Requantize src params.target_qparams.zero_point params.multiplier
    params.right_shift params.target_qparams.precision false

/-- QuantUtils.h, floating-point `Requantize<T>(int32 src, int32 zero_point,
float multiplier, int result_precision, bool result_is_signed)`:
`quantized_down = zero_point + lrintf(src * multiplier)` (a `long`, i.e.
64-bit, sum; `lrintf` is embedded as `roundHalfEven`, and the float product
as the exact rational product), then clamped.  In the C++ template
`result_is_signed` defaults to `false`; here it is always passed
explicitly. -/
def RequantizeFloat (src : ℤ) (zero_point : ℤ) (multiplier : ℚ)
    (result_precision : ℕ) (result_is_signed : Bool) : ℤ :=
  let quantized_down : ℤ := zero_point + roundHalfEven ((src : ℚ) * multiplier)
  clamp quantized_down result_precision result_is_signed

/-- QuantUtils.h, `Requantize<T>(int32 src, RequantizationParams)`: forwards
to the floating-point `Requantize` without passing `result_is_signed`, so the
`false` default applies regardless of `T`. -/
def RequantizeWithParams (src : ℤ) (params : RequantizationParams) : ℤ :=
  RequantizeFloat src params.target_qparams.zero_point params.real_multiplier
    params.target_qparams.precision false

/-- A value already in `[-2^31, 2^31)` is unchanged by the `std::int32_t`
conversion. -/
theorem toInt32_eq_self {n : ℤ} (h1 : -(2 ^ 31) ≤ n) (h2 : n < 2 ^ 31) :
    toInt32 n = n := by
  unfold toInt32
  omega

/-- A value already in `[-2^63, 2^63)` is unchanged by the `std::int64_t`
conversion. -/
theorem toInt64_eq_self {n : ℤ} (h1 : -(2 ^ 63) ≤ n) (h2 : n < 2 ^ 63) :
    toInt64 n = n := by
  unfold toInt64
  omega

/-- For precisions whose bounds fit `std::int32_t` (any signed precision up to
32, unsigned precisions up to 31), `clamp` computes exactly the saturation to
the mathematical bounds. -/
theorem clamp_eq_minmax (src : ℤ) (p : ℕ) (sgn : Bool)
    (hp32 : p ≤ 32) (hfit : sgn = true ∨ p ≤ 31) :
    clamp src p sgn = min (max src (loBound p sgn)) (hiBound p sgn) := by
  have hmono : (2 : ℤ) ^ (p - 1) ≤ 2 ^ 31 :=
    pow_le_pow_right₀ (by norm_num) (by omega)
  have hpos : (0 : ℤ) < 2 ^ (p - 1) := pow_pos (by norm_num) _
  cases sgn with
  | true =>
      unfold clamp loBound hiBound
      simp only [if_true]
      rw [toInt32_eq_self (by omega) (by omega),
        toInt32_eq_self (by omega) (by omega)]
  | false =>
      have h31 : p ≤ 31 := by
        rcases hfit with h | h
        · exact absurd h (by simp)
        · exact h
      have hmono2 : (2 : ℤ) ^ p ≤ 2 ^ 31 :=
        pow_le_pow_right₀ (by norm_num) h31
      have hpos2 : (0 : ℤ) < 2 ^ p := pow_pos (by norm_num) _
      unfold clamp loBound hiBound
      simp only [if_false]
      rw [toInt32_eq_self (by omega) (by omega),
        toInt32_eq_self (by omega) (by omega)]

/-- For positive precisions whose bounds fit `std::int32_t`, the result of
`clamp` lies inside the mathematical target range. -/
theorem clamp_mem (src : ℤ) (p : ℕ) (sgn : Bool)
    (hp32 : p ≤ 32) (hfit : sgn = true ∨ p ≤ 31) :
    loBound p sgn ≤ clamp src p sgn ∧ clamp src p sgn ≤ hiBound p sgn := by
  have hpos : (0 : ℤ) < 2 ^ (p - 1) := pow_pos (by norm_num) _
  have hpos2 : (0 : ℤ) < 2 ^ p := pow_pos (by norm_num) _
  rw [clamp_eq_minmax src p sgn hp32 hfit]
  have hlohi : loBound p sgn ≤ hiBound p sgn := by
    unfold loBound hiBound
    cases sgn <;> simp <;> omega
  omega

/-- `roundHalfEven` is at distance at most one half from its argument. -/
theorem roundHalfEven_abs_sub_le (q : ℚ) : |(roundHalfEven q : ℚ) - q| ≤ 1 / 2 := by
  have h0 : (⌊q⌋ : ℚ) ≤ q := Int.floor_le q
  have h1 : q < ⌊q⌋ + 1 := Int.lt_floor_add_one q
  unfold roundHalfEven
  split_ifs with hc1 hc2 hc3 <;> rw [abs_le] <;> push_cast <;>
    constructor <;> linarith

/-- `roundHalfAway` is at distance at most one half from its argument. -/
theorem roundHalfAway_abs_sub_le (q : ℚ) : |(roundHalfAway q : ℚ) - q| ≤ 1 / 2 := by
  have h0 : (⌊q⌋ : ℚ) ≤ q := Int.floor_le q
  have h1 : q < ⌊q⌋ + 1 := Int.lt_floor_add_one q
  unfold roundHalfAway
  split_ifs with hc1 hc2 hc3 <;> rw [abs_le] <;> push_cast <;>
    constructor <;> linarith

/-- Away from exact halves the two tie-breaking rules agree. -/
theorem roundHalfEven_eq_roundHalfAway (q : ℚ) (h : q - ⌊q⌋ ≠ 1 / 2) :
    roundHalfEven q = roundHalfAway q := by
  unfold roundHalfEven roundHalfAway
  split_ifs with hc1 hc2 hc3 hc4 <;> try rfl
  all_goals exact absurd (by linarith) h

/-- `roundHalfEven q` is a nearest integer to `q`. -/
theorem roundHalfEven_nearest (q : ℚ) (m : ℤ) :
    |q - (roundHalfEven q : ℚ)| ≤ |q - (m : ℚ)| := by
  rcases eq_or_ne m (roundHalfEven q) with h | h
  · rw [h]
  · have hd : |(roundHalfEven q : ℚ) - q| ≤ 1 / 2 := roundHalfEven_abs_sub_le q
    have hint : (1 : ℤ) ≤ |m - roundHalfEven q| :=
      Int.one_le_abs (sub_ne_zero.mpr h)
    have hcast : (1 : ℚ) ≤ |(m : ℚ) - (roundHalfEven q : ℚ)| := by
      exact_mod_cast hint
    have htri : |(m : ℚ) - (roundHalfEven q : ℚ)| ≤
        |(m : ℚ) - q| + |q - (roundHalfEven q : ℚ)| := abs_sub_le _ _ _
    have h3 : |q - (roundHalfEven q : ℚ)| ≤ 1 / 2 := by
      rw [abs_sub_comm]
      exact hd
    rw [abs_sub_comm q (m : ℚ)]
    linarith

/-- Dividing (euclidean, positive divisor) keeps a symmetric bound. -/
theorem ediv_bound {x M d : ℤ} (hd : 0 < d) (hM : 0 ≤ M)
    (h1 : -M ≤ x) (h2 : x ≤ M) : -M ≤ x / d ∧ x / d ≤ M := by
  have hd1 : 1 ≤ d := hd
  constructor
  · have hMd : -M * d ≤ x := by nlinarith
    calc -M = -M * d / d := by rw [Int.mul_ediv_cancel _ (ne_of_gt hd)]
      _ ≤ x / d := Int.ediv_le_ediv hd hMd
  · have hMd : x ≤ M * d := by nlinarith
    calc x / d ≤ M * d / d := Int.ediv_le_ediv hd hMd
      _ = M := Int.mul_ediv_cancel _ (ne_of_gt hd)

/-- The bulk dequantize loop writes `Dequantize(src[j])` at every index `j` in
`[i, bound)` and leaves every other index of `dst` untouched. -/
theorem dequantizeBulkAux_apply (src : ℕ → ℤ) (qparams : TensorQuantizationParams)
    (bound : ℕ) :
    ∀ i dst j, dequantizeBulkAux src qparams bound i dst j =
      if i ≤ j ∧ j < bound then Dequantize (src j) qparams else dst j := by
  have key : ∀ n i dst j, bound - i ≤ n →
      dequantizeBulkAux src qparams bound i dst j =
        if i ≤ j ∧ j < bound then Dequantize (src j) qparams else dst j := by
    intro n
    induction n with
    | zero =>
        intro i dst j hn
        have hnb : ¬ i < bound := by omega
        rw [dequantizeBulkAux, if_neg hnb]
        have : ¬ (i ≤ j ∧ j < bound) := by omega
        rw [if_neg this]
    | succ n ih =>
        intro i dst j hn
        by_cases hib : i < bound
        · rw [dequantizeBulkAux, if_pos hib, ih (i + 1) _ j (by omega)]
          by_cases hj : j = i
          · subst hj
            have hnot : ¬ (j + 1 ≤ j ∧ j < bound) := by omega
            rw [if_neg hnot, if_pos (by omega : j ≤ j ∧ j < bound), if_pos rfl]
          · by_cases hcond : i + 1 ≤ j ∧ j < bound
            · rw [if_pos hcond, if_pos (by omega : i ≤ j ∧ j < bound)]
            · rw [if_neg hcond, if_neg hj,
                if_neg (by omega : ¬ (i ≤ j ∧ j < bound))]
        · rw [dequantizeBulkAux, if_neg hib,
            if_neg (by omega : ¬ (i ≤ j ∧ j < bound))]
  intro i dst j
  exact key (bound - i) i dst j le_rfl

/-- Claim C1 (amended): for every precision in [1,32] and signedness such
that the bounds fit the int32 locals (signed, or unsigned with precision at
most 31), and every source value, `clamp` returns `min(max(src, lo), hi)` for
the mathematical bounds `lo`/`hi`, and the result lies in `[lo, hi]` — it
saturates and never wraps. -/
theorem clamp_saturates (src : ℤ) (p : ℕ) (sgn : Bool)
    (hp1 : 1 ≤ p) (hp32 : p ≤ 32) (hfit : sgn = true ∨ p ≤ 31) :
    clamp src p sgn = min (max src (loBound p sgn)) (hiBound p sgn) ∧
    loBound p sgn ≤ clamp src p sgn ∧ clamp src p sgn ≤ hiBound p sgn := by
  have h1 := hp1
  exact ⟨clamp_eq_minmax src p sgn hp32 hfit, clamp_mem src p sgn hp32 hfit⟩

/-- Claim C1 witness: the spec scenario `clamp(300, 8, unsigned) = 255`
instantiates the theorem. -/
theorem clamp_saturates_witness :
    ((1 ≤ 8 ∧ 8 ≤ 32 ∧ (false = true ∨ 8 ≤ 31)) ∧
      clamp 300 8 false = min (max 300 (loBound 8 false)) (hiBound 8 false) ∧
      loBound 8 false ≤ clamp 300 8 false ∧
      clamp 300 8 false ≤ hiBound 8 false) ∧
    clamp 300 8 false = 255 :=
  ⟨⟨⟨by decide, by decide, by decide⟩,
    clamp_saturates 300 8 false (by decide) (by decide) (by decide)⟩, by decide⟩

/-- Claim C1 counterexample: at precision 32 unsigned, the bound
`2^32 - 1` wraps to `-1` in the `std::int32_t` local, so `clamp(5, 32, false)`
returns `-1` instead of `min(max(5, 0), 2^32 - 1) = 5`, and the result even
falls below the claimed lower bound `0`. -/
theorem clamp_saturates_cex :
    clamp 5 32 false ≠ min (max 5 (loBound 32 false)) (hiBound 32 false) ∧
    clamp 5 32 false < loBound 32 false := by
  decide

/-- Claim C4: for every int32 `src`, `zero_point` and `multiplier` (excluding
the one saturating input pair) and every shift up to 62, the fixed-point
`Requantize` equals
`clamp(zero_point + SaturatingRoundingMulWithShift(src, multiplier,
right_shift), precision, is_signed)` with the sum read as an exact integer
sum: the 64-bit addition performed by the source never wraps there. -/
theorem requantize_fixed_formula (src zp mult : ℤ) (rs p : ℕ) (sgn : Bool)
    (hsrc1 : -(2 ^ 31) ≤ src) (hsrc2 : src < 2 ^ 31)
    (hmult1 : -(2 ^ 31) ≤ mult) (hmult2 : mult < 2 ^ 31)
    (hzp1 : -(2 ^ 31) ≤ zp) (hzp2 : zp < 2 ^ 31)
    (hrs : rs ≤ 62)
    (hcorner : ¬(src = -(2 ^ 31) ∧ mult = -(2 ^ 31))) :
    Requantize src zp mult rs p sgn =
      clamp (zp + SaturatingRoundingMulWithShift src mult rs) p sgn := by
  have habs : |src * mult| ≤ 2 ^ 62 := by
    have h1 : |src| ≤ 2 ^ 31 := by rw [abs_le]; omega
    have h2 : |mult| ≤ 2 ^ 31 := by rw [abs_le]; omega
    calc |src * mult| = |src| * |mult| := abs_mul _ _
      _ ≤ 2 ^ 31 * 2 ^ 31 := mul_le_mul h1 h2 (abs_nonneg _) (by norm_num)
      _ = 2 ^ 62 := by norm_num
  rw [abs_le] at habs
  have hub : -(2 ^ 62 + 2 ^ 61) ≤ SaturatingRoundingMulWithShift src mult rs ∧
      SaturatingRoundingMulWithShift src mult rs ≤ 2 ^ 62 + 2 ^ 61 := by
    unfold SaturatingRoundingMulWithShift
    rw [if_neg hcorner]
    by_cases h0 : rs = 0
    · rw [if_pos h0]
      omega
    · rw [if_neg h0]
      have hn : (2 : ℤ) ^ (rs - 1) ≤ 2 ^ 61 :=
        pow_le_pow_right₀ (by norm_num) (by omega)
      have hnn : (0 : ℤ) < 2 ^ (rs - 1) := pow_pos (by norm_num) _
      have hd : (0 : ℤ) < 2 ^ rs := pow_pos (by norm_num) _
      exact ediv_bound hd (by norm_num) (by omega) (by omega)
  obtain ⟨hu1, hu2⟩ := hub
  simp only [Requantize]
  rw [toInt64_eq_self (by omega) (by omega)]

/-- Claim C4 witness: the theorem instantiated at `src = 1000`,
`zero_point = 3`, `multiplier = 2000`, `right_shift = 10`, precision 16,
unsigned. -/
theorem requantize_fixed_formula_witness :
    ((-(2 ^ 31) ≤ (1000 : ℤ) ∧ (1000 : ℤ) < 2 ^ 31 ∧
      -(2 ^ 31) ≤ (2000 : ℤ) ∧ (2000 : ℤ) < 2 ^ 31 ∧
      -(2 ^ 31) ≤ (3 : ℤ) ∧ (3 : ℤ) < 2 ^ 31 ∧ 10 ≤ 62 ∧
      ¬((1000 : ℤ) = -(2 ^ 31) ∧ (2000 : ℤ) = -(2 ^ 31))) ∧
      Requantize 1000 3 2000 10 16 false =
        clamp (3 + SaturatingRoundingMulWithShift 1000 2000 10) 16 false) ∧
    Requantize 1000 3 2000 10 16 false = 1956 :=
  ⟨⟨⟨by decide, by decide, by decide, by decide, by decide, by decide,
      by decide, by decide⟩,
    requantize_fixed_formula 1000 3 2000 10 16 false (by decide) (by decide)
      (by decide) (by decide) (by decide) (by decide) (by decide) (by decide)⟩,
    by decide⟩

/-- Claim C6: `RequantizeFixedPoint<T>` and the params-taking `Requantize<T>`
forward to the underlying requantize functions without passing
`result_is_signed`, so the default `false` applies and, for any precision in
[1,31], the final clamp uses the unsigned bounds `[0, 2^precision - 1]`
whatever `T` is. -/
theorem requantize_params_default_unsigned (src : ℤ)
    (params : RequantizationParams)
    (hp1 : 1 ≤ params.target_qparams.precision)
    (hp31 : params.target_qparams.precision ≤ 31) :
    RequantizeFixedPoint src params =
      Requantize src params.target_qparams.zero_point params.multiplier
        params.right_shift params.target_qparams.precision false ∧
    RequantizeWithParams src params =
      RequantizeFloat src params.target_qparams.zero_point
        params.real_multiplier params.target_qparams.precision false ∧
    0 ≤ RequantizeFixedPoint src params ∧
    RequantizeFixedPoint src params ≤ 2 ^ params.target_qparams.precision - 1 ∧
    0 ≤ RequantizeWithParams src params ∧
    RequantizeWithParams src params ≤ 2 ^ params.target_qparams.precision - 1 := by
  have hfit : false = true ∨ params.target_qparams.precision ≤ 31 := Or.inr hp31
  have h1 := clamp_mem
    (toInt64 (params.target_qparams.zero_point +
      SaturatingRoundingMulWithShift src params.multiplier params.right_shift))
    params.target_qparams.precision false (by omega) hfit
  have h2 := clamp_mem
    (params.target_qparams.zero_point +
      roundHalfEven ((src : ℚ) * params.real_multiplier))
    params.target_qparams.precision false (by omega) hfit
  simp only [loBound, hiBound, Bool.false_eq_true, if_false] at h1 h2
  exact ⟨rfl, rfl, h1.1, h1.2, h2.1, h2.2⟩

/-- Claim C6 witness: the theorem instantiated at `src = 1000` and concrete
8-bit parameters. -/
theorem requantize_params_default_unsigned_witness :
    ((1 ≤ (RequantizationParams.mk (1/2) 5 3 ⟨1, 10, 8⟩).target_qparams.precision ∧
      (RequantizationParams.mk (1/2) 5 3 ⟨1, 10, 8⟩).target_qparams.precision ≤ 31) ∧
      0 ≤ RequantizeFixedPoint 1000 (RequantizationParams.mk (1/2) 5 3 ⟨1, 10, 8⟩) ∧
      RequantizeFixedPoint 1000 (RequantizationParams.mk (1/2) 5 3 ⟨1, 10, 8⟩) ≤
        2 ^ (8 : ℕ) - 1) :=
  ⟨⟨by decide, by decide⟩,
    (requantize_params_default_unsigned 1000 (RequantizationParams.mk (1/2) 5 3 ⟨1, 10, 8⟩)
      (by decide) (by decide)).2.2.1,
    (requantize_params_default_unsigned 1000 (RequantizationParams.mk (1/2) 5 3 ⟨1, 10, 8⟩)
      (by decide) (by decide)).2.2.2.1⟩

/-- Claim C7: for every nonnegative `len` (in int range), bulk `Dequantize`
is a pure elementwise map: output index `j` holds `Dequantize(src[j])` when
`j < len` and keeps the old `dst` value otherwise — no other location is
written. -/
theorem dequantizeBulk_elementwise (src : ℕ → ℤ) (dst : ℕ → ℚ) (len : ℤ)
    (qparams : TensorQuantizationParams)
    (hlen : 0 ≤ len) (hlen2 : len < 2 ^ 31) :
    ∀ j : ℕ, DequantizeBulk src dst len qparams j =
      if (j : ℤ) < len then Dequantize (src j) qparams else dst j := by
  intro j
  unfold DequantizeBulk
  rw [dequantizeBulkAux_apply]
  have hb : toSizeT len = len.toNat := by
    unfold toSizeT
    omega
  rw [hb]
  by_cases hj : (j : ℤ) < len
  · rw [if_pos ⟨Nat.zero_le j, by omega⟩, if_pos hj]
  · rw [if_neg (by omega : ¬(0 ≤ j ∧ j < len.toNat)), if_neg hj]

/-- Claim C7 witness: a two-element buffer; index 1 is mapped, index 5 is
left untouched. -/
theorem dequantizeBulk_elementwise_witness :
    (((0 : ℤ) ≤ 2 ∧ (2 : ℤ) < 2 ^ 31) ∧
      DequantizeBulk (fun _ => 7) (fun _ => 0) 2 ⟨1, 3, 8⟩ 1 =
        if ((1 : ℕ) : ℤ) < 2 then Dequantize 7 ⟨1, 3, 8⟩ else 0) ∧
    DequantizeBulk (fun _ => 7) (fun _ => 0) 2 ⟨1, 3, 8⟩ 5 =
      if ((5 : ℕ) : ℤ) < 2 then Dequantize 7 ⟨1, 3, 8⟩ else 0 :=
  ⟨⟨⟨by decide, by decide⟩,
    dequantizeBulk_elementwise (fun _ => 7) (fun _ => 0) 2 ⟨1, 3, 8⟩
      (by decide) (by decide) 1⟩,
    dequantizeBulk_elementwise (fun _ => 7) (fun _ => 0) 2 ⟨1, 3, 8⟩
      (by decide) (by decide) 5⟩

/-- Claim C9: the loop guard `i < len` converts the `int` length to
`size_t`.  For negative `len` the converted bound exceeds `2^63`, so the loop
does not execute zero times (index 0 is written); for nonnegative `len` the
bound equals `len`, the loop performs exactly `len` iterations and every
index at or above `len` is untouched. -/
theorem dequantizeBulk_len_conversion (len : ℤ)
    (h1 : -(2 ^ 31) ≤ len) (h2 : len < 2 ^ 31) :
    (len < 0 → 2 ^ 63 < toSizeT len ∧
      ∀ src dst qparams, DequantizeBulk src dst len qparams 0 =
        Dequantize (src 0) qparams) ∧
    (0 ≤ len → toSizeT len = len.toNat ∧
      ∀ src dst qparams j, len.toNat ≤ j →
        DequantizeBulk src dst len qparams j = dst j) := by
  constructor
  · intro hneg
    have hb : 2 ^ 63 < toSizeT len := by
      unfold toSizeT
      omega
    refine ⟨hb, fun src dst qparams => ?_⟩
    unfold DequantizeBulk
    rw [dequantizeBulkAux_apply, if_pos ⟨le_rfl, by omega⟩]
  · intro hpos
    have hb : toSizeT len = len.toNat := by
      unfold toSizeT
      omega
    refine ⟨hb, fun src dst qparams j hj => ?_⟩
    unfold DequantizeBulk
    rw [dequantizeBulkAux_apply, hb, if_neg (by omega : ¬(0 ≤ j ∧ j < len.toNat))]

/-- Claim C9 witness: the theorem instantiated at `len = -1` (huge converted
bound, index 0 written) and at `len = 3` (exact bound). -/
theorem dequantizeBulk_len_conversion_witness :
    ((-(2 ^ 31) ≤ (-1 : ℤ) ∧ (-1 : ℤ) < 2 ^ 31) ∧
      2 ^ 63 < toSizeT (-1) ∧
      DequantizeBulk (fun _ => 4) (fun _ => 9) (-1) ⟨1, 0, 8⟩ 0 =
        Dequantize 4 ⟨1, 0, 8⟩) ∧
    toSizeT 3 = (3 : ℤ).toNat :=
  ⟨⟨⟨by decide, by decide⟩,
    ((dequantizeBulk_len_conversion (-1) (by decide) (by decide)).1 (by decide)).1,
    ((dequantizeBulk_len_conversion (-1) (by decide) (by decide)).1 (by decide)).2
      (fun _ => 4) (fun _ => 9) ⟨1, 0, 8⟩⟩,
    ((dequantizeBulk_len_conversion 3 (by decide) (by decide)).2 (by decide)).1⟩

/-- Claim C10 (amended): the `Dequantize` subtraction is evaluated in 32-bit
integer arithmetic.  For a source value of a type of width at most 16 bits it
cannot overflow provided the zero point stays in
`[-2^31 + 2^16, 2^31 - 2^15]` (not for every int32 zero point), and for
`T = int32` the pair `(src, zero_point) = (2^31 - 1, -1)` overflows. -/
theorem dequantize32_sub_exact (src : ℤ) (qp : TensorQuantizationParams)
    (h1 : -(2 ^ 15) ≤ src) (h2 : src ≤ 2 ^ 16 - 1)
    (h3 : -(2 ^ 31) + 2 ^ 16 ≤ qp.zero_point)
    (h4 : qp.zero_point ≤ 2 ^ 31 - 2 ^ 15) :
    sub32 src qp.zero_point = src - qp.zero_point ∧
    Dequantize32 src qp = Dequantize src qp ∧
    sub32 (2 ^ 31 - 1) (-1) ≠ (2 ^ 31 - 1) - (-1) := by
  have hs : sub32 src qp.zero_point = src - qp.zero_point := by
    unfold sub32
    exact toInt32_eq_self (by omega) (by omega)
  refine ⟨hs, ?_, by decide⟩
  unfold Dequantize32 Dequantize
  rw [hs]

/-- Claim C10 witness: the theorem instantiated at `src = 100`,
`zero_point = 10`. -/
theorem dequantize32_sub_exact_witness :
    ((-(2 ^ 15) ≤ (100 : ℤ) ∧ (100 : ℤ) ≤ 2 ^ 16 - 1 ∧
      -(2 ^ 31) + 2 ^ 16 ≤ (TensorQuantizationParams.mk 1 10 8).zero_point ∧
      (TensorQuantizationParams.mk 1 10 8).zero_point ≤ 2 ^ 31 - 2 ^ 15) ∧
      sub32 100 (TensorQuantizationParams.mk 1 10 8).zero_point = 100 - 10 ∧
      Dequantize32 100 (TensorQuantizationParams.mk 1 10 8) =
        Dequantize 100 (TensorQuantizationParams.mk 1 10 8)) :=
  ⟨⟨by decide, by decide, by decide, by decide⟩,
    (dequantize32_sub_exact 100 (TensorQuantizationParams.mk 1 10 8)
      (by decide) (by decide) (by decide) (by decide)).1,
    (dequantize32_sub_exact 100 (TensorQuantizationParams.mk 1 10 8)
      (by decide) (by decide) (by decide) (by decide)).2.1⟩

/-- Claim C10 counterexample: with a source value representable in every type
of width at most 16 bits (`src = 0`) and the int32 zero point `-2^31`, the
32-bit difference wraps: it is `-2^31`, not the mathematical `2^31`. -/
theorem dequantize32_sub_cex :
    sub32 0 (-(2 ^ 31)) ≠ 0 - (-(2 ^ 31)) ∧ sub32 0 (-(2 ^ 31)) = -(2 ^ 31) := by
  decide

/-- Claim C2 (amended): the real-multiplier Requantize returns
`clamp(zero_point + round(src * multiplier), precision, is_signed)` where the
rounding is `lrintf`'s round-to-nearest with ties to even (the default
rounding mode) rather than round-half-away-from-zero; whenever
`src * multiplier` is not exactly halfway between two integers the two tie
rules agree, and the claimed formula holds. -/
theorem requantize_float_half_away (src zp : ℤ) (m : ℚ) (p : ℕ) (sgn : Bool)
    (hm : (src : ℚ) * m - ⌊(src : ℚ) * m⌋ ≠ 1 / 2) :
    RequantizeFloat src zp m p sgn =
      clamp (zp + roundHalfAway ((src : ℚ) * m)) p sgn := by
  simp only [RequantizeFloat]
  rw [roundHalfEven_eq_roundHalfAway _ hm]

/-- Claim C2 witness: the theorem instantiated at `src = 1`,
`multiplier = 3/10` (not a tie). -/
theorem requantize_float_half_away_witness :
    (((1 : ℤ) : ℚ) * (3 / 10) - ⌊((1 : ℤ) : ℚ) * (3 / 10)⌋ ≠ 1 / 2) ∧
    RequantizeFloat 1 0 (3 / 10) 8 false =
      clamp (0 + roundHalfAway (((1 : ℤ) : ℚ) * (3 / 10))) 8 false :=
  ⟨by norm_num, requantize_float_half_away 1 0 (3 / 10) 8 false (by norm_num)⟩

/-- Claim C2 counterexample: at `src = 1`, `multiplier = 1/2` (value and
product exactly representable as floats), `zero_point = 0`, precision 8
unsigned, `lrintf(0.5)` is 0 under ties-to-even while
round-half-away-from-zero yields 1, so the code differs from the claimed
formula. -/
theorem requantize_float_tie_cex :
    RequantizeFloat 1 0 (1 / 2) 8 false ≠
      clamp (0 + roundHalfAway (((1 : ℤ) : ℚ) * (1 / 2))) 8 false := by
  have hr : roundHalfEven (((1 : ℤ) : ℚ) * (1 / 2)) = 0 := by
    norm_num [roundHalfEven]
  have ha : roundHalfAway (((1 : ℤ) : ℚ) * (1 / 2)) = 1 := by
    norm_num [roundHalfAway]
  have h1 : RequantizeFloat 1 0 (1 / 2) 8 false = 0 := by
    simp only [RequantizeFloat, hr]
    decide
  rw [h1, ha]
  decide

/-- Claim C5: `Quantize` computes `t = zero_point + src / scale`, rounds `t`
to a nearest integer (the consistent ties-to-even rule of `nearbyint` under
the default rounding mode), and hands the rounded value to the `clamp`
primitive for the requested precision and signedness. -/
theorem quantize_rounds_nearest_then_clamps (src : ℚ) (zp : ℤ) (scale : ℚ)
    (p : ℕ) (sgn : Bool) (hs : 0 < scale) :
    ∃ r : ℤ, (∀ m : ℤ, |((zp : ℚ) + src / scale) - (r : ℚ)| ≤
        |((zp : ℚ) + src / scale) - (m : ℚ)|) ∧
      Quantize src zp scale p sgn = clamp r p sgn := by
  have h1 := hs
  exact ⟨roundHalfEven ((zp : ℚ) + src / scale),
    fun m => roundHalfEven_nearest _ m, rfl⟩

/-- Claim C5 witness: the spec scenario
`Quantize(0.5, zero_point = 0, scale = 0.1, precision = 8, unsigned) = 5`
instantiates the theorem. -/
theorem quantize_rounds_nearest_then_clamps_witness :
    ((0 : ℚ) < 1 / 10 ∧
      ∃ r : ℤ, (∀ m : ℤ, |(((0 : ℤ) : ℚ) + (1 / 2) / (1 / 10)) - (r : ℚ)| ≤
          |(((0 : ℤ) : ℚ) + (1 / 2) / (1 / 10)) - (m : ℚ)|) ∧
        Quantize (1 / 2) 0 (1 / 10) 8 false = clamp r 8 false) ∧
    Quantize (1 / 2) 0 (1 / 10) 8 false = 5 := by
  have ht : ((0 : ℤ) : ℚ) + (1 / 2) / (1 / 10) = 5 := by norm_num
  have hr : roundHalfEven (((0 : ℤ) : ℚ) + (1 / 2) / (1 / 10)) = 5 := by
    rw [ht]
    norm_num [roundHalfEven]
  refine ⟨⟨by norm_num, quantize_rounds_nearest_then_clamps (1 / 2) 0 (1 / 10) 8 false (by norm_num)⟩, ?_⟩
  simp only [Quantize, hr]
  decide

/-- Claim C8: scalar `Dequantize` is exactly the affine map
`scale * (q - zero_point)`: no rounding to an integer and no clamping is
applied, so it is injective on codes for any positive scale. -/
theorem dequantize_affine_exact (q : ℤ) (qp : TensorQuantizationParams)
    (hs : 0 < qp.scale) :
    Dequantize q qp = qp.scale * ((q : ℚ) - (qp.zero_point : ℚ)) ∧
    ∀ r : ℤ, Dequantize r qp = Dequantize q qp → r = q := by
  constructor
  · unfold Dequantize
    push_cast
    ring
  · intro r h
    unfold Dequantize at h
    have h2 : ((r - qp.zero_point : ℤ) : ℚ) = ((q - qp.zero_point : ℤ) : ℚ) :=
      mul_left_cancel₀ (ne_of_gt hs) h
    have h3 : r - qp.zero_point = q - qp.zero_point := by exact_mod_cast h2
    omega

/-- Claim C8 witness: the theorem instantiated at `q = 7`,
`scale = 1/2`, `zero_point = 3`, where `Dequantize` yields exactly 2. -/
theorem dequantize_affine_exact_witness :
    ((0 : ℚ) < (TensorQuantizationParams.mk (1 / 2) 3 8).scale ∧
      Dequantize 7 (TensorQuantizationParams.mk (1 / 2) 3 8) =
        (TensorQuantizationParams.mk (1 / 2) 3 8).scale *
          ((7 : ℚ) - (((TensorQuantizationParams.mk (1 / 2) 3 8).zero_point : ℤ) : ℚ))) ∧
    Dequantize 7 (TensorQuantizationParams.mk (1 / 2) 3 8) = 2 :=
  ⟨⟨by norm_num,
    (dequantize_affine_exact 7 (TensorQuantizationParams.mk (1 / 2) 3 8) (by norm_num)).1⟩,
    by norm_num [Dequantize]⟩

/-- Claim C3 (amended): for valid parameters (positive scale, zero point in
range, precision in [1,32]) whose clamp bounds fit the int32 locals (signed,
or unsigned with precision at most 31), every `x` in `[Min(), Max()]`
satisfies `|Dequantize(Quantize(x, params), params) - x| <= scale / 2`. -/
theorem quantize_dequantize_error_bound (qp : TensorQuantizationParams)
    (sgn : Bool) (x : ℚ)
    (hs : 0 < qp.scale) (hp1 : 1 ≤ qp.precision) (hp32 : qp.precision ≤ 32)
    (hfit : sgn = true ∨ qp.precision ≤ 31)
    (hzlo : loBound qp.precision sgn ≤ qp.zero_point)
    (hzhi : qp.zero_point ≤ hiBound qp.precision sgn)
    (hxlo : QParamsMin qp sgn ≤ x) (hxhi : x ≤ QParamsMax qp sgn) :
    |Dequantize (Quantize x qp.zero_point qp.scale qp.precision sgn) qp - x| ≤
      qp.scale / 2 := by
  obtain ⟨s, z, p⟩ := qp
  simp only at hs hp1 hp32 hzlo hzhi
  have hxlo' : s * ((loBound p sgn - z : ℤ) : ℚ) ≤ x := hxlo
  have hxhi' : x ≤ s * ((hiBound p sgn - z : ℤ) : ℚ) := hxhi
  have hrt := roundHalfEven_abs_sub_le ((z : ℚ) + x / s)
  rw [abs_le] at hrt
  obtain ⟨hrt1, hrt2⟩ := hrt
  have hlot : ((loBound p sgn : ℤ) : ℚ) ≤ (z : ℚ) + x / s := by
    have h2 : ((loBound p sgn - z : ℤ) : ℚ) ≤ x / s := by
      rw [le_div_iff₀ hs, mul_comm]
      exact hxlo'
    push_cast at h2 ⊢
    linarith
  have hhit : (z : ℚ) + x / s ≤ ((hiBound p sgn : ℤ) : ℚ) := by
    have h2 : x / s ≤ ((hiBound p sgn - z : ℤ) : ℚ) := by
      rw [div_le_iff₀ hs, mul_comm]
      exact hxhi'
    push_cast at h2 ⊢
    linarith
  have hlor : loBound p sgn ≤ roundHalfEven ((z : ℚ) + x / s) := by
    have h5 : ((loBound p sgn - 1 : ℤ) : ℚ) <
        (roundHalfEven ((z : ℚ) + x / s) : ℚ) := by
      push_cast
      linarith
    have h6 : loBound p sgn - 1 < roundHalfEven ((z : ℚ) + x / s) := by
      exact_mod_cast h5
    omega
  have hhir : roundHalfEven ((z : ℚ) + x / s) ≤ hiBound p sgn := by
    have h5 : (roundHalfEven ((z : ℚ) + x / s) : ℚ) <
        ((hiBound p sgn + 1 : ℤ) : ℚ) := by
      push_cast
      linarith
    have h6 : roundHalfEven ((z : ℚ) + x / s) < hiBound p sgn + 1 := by
      exact_mod_cast h5
    omega
  have hq : Quantize x z s p sgn = roundHalfEven ((z : ℚ) + x / s) := by
    simp only [Quantize]
    rw [clamp_eq_minmax _ p sgn hp32 hfit]
    omega
  rw [hq]
  have hde : Dequantize (roundHalfEven ((z : ℚ) + x / s))
      (TensorQuantizationParams.mk s z p) - x =
      s * ((roundHalfEven ((z : ℚ) + x / s) : ℚ) - ((z : ℚ) + x / s)) := by
    unfold Dequantize
    push_cast
    field_simp
    ring
  rw [hde, abs_mul, abs_of_pos hs]
  have hb : |(roundHalfEven ((z : ℚ) + x / s) : ℚ) - ((z : ℚ) + x / s)| ≤ 1 / 2 := by
    rw [abs_le]
    exact ⟨hrt1, hrt2⟩
  calc s * |(roundHalfEven ((z : ℚ) + x / s) : ℚ) - ((z : ℚ) + x / s)| ≤
      s * (1 / 2) := mul_le_mul_of_nonneg_left hb (le_of_lt hs)
    _ = s / 2 := by ring

/-- Claim C3 witness: the theorem instantiated at `scale = 1`,
`zero_point = 0`, precision 8 unsigned, `x = 5`. -/
theorem quantize_dequantize_error_bound_witness :
    ((0 : ℚ) < 1 ∧ QParamsMin (TensorQuantizationParams.mk 1 0 8) false ≤ 5 ∧
      (5 : ℚ) ≤ QParamsMax (TensorQuantizationParams.mk 1 0 8) false) ∧
    |Dequantize (Quantize 5 0 1 8 false) (TensorQuantizationParams.mk 1 0 8) - 5| ≤
      (1 : ℚ) / 2 :=
  ⟨⟨by norm_num,
    by norm_num [QParamsMin, Dequantize, loBound],
    by norm_num [QParamsMax, Dequantize, hiBound]⟩,
    quantize_dequantize_error_bound (TensorQuantizationParams.mk 1 0 8) false 5
      (by norm_num) (by decide) (by decide) (by decide) (by decide) (by decide)
      (by norm_num [QParamsMin, Dequantize, loBound])
      (by norm_num [QParamsMax, Dequantize, hiBound])⟩

/-- Claim C3 counterexample: the parameters `scale = 1`, `zero_point = 0`,
precision 32, unsigned, are valid as the claim states (positive scale, zero
point in the unsigned 32-bit range, precision in [1,32]) and `x = 5` lies in
`[Min(), Max()]`, yet the round trip returns `-1` (the wrapped int32 clamp
bound), an error of 6 > scale/2. -/
theorem quantize_dequantize_error_cex :
    (0 : ℚ) < 1 ∧ 1 ≤ 32 ∧ 32 ≤ 32 ∧
    loBound 32 false ≤ 0 ∧ (0 : ℤ) ≤ hiBound 32 false ∧
    QParamsMin (TensorQuantizationParams.mk 1 0 32) false ≤ 5 ∧
    (5 : ℚ) ≤ QParamsMax (TensorQuantizationParams.mk 1 0 32) false ∧
    ¬ (|Dequantize (Quantize 5 0 1 32 false) (TensorQuantizationParams.mk 1 0 32) - 5| ≤
        (1 : ℚ) / 2) := by
  have ht : ((0 : ℤ) : ℚ) + (5 : ℚ) / 1 = 5 := by norm_num
  have hr : roundHalfEven (((0 : ℤ) : ℚ) + (5 : ℚ) / 1) = 5 := by
    rw [ht]
    norm_num [roundHalfEven]
  have hq : Quantize 5 0 1 32 false = -1 := by
    simp only [Quantize, hr]
    decide
  refine ⟨by norm_num, by decide, by decide, by decide, by decide,
    by norm_num [QParamsMin, Dequantize, loBound],
    by norm_num [QParamsMax, Dequantize, hiBound], ?_⟩
  rw [hq]
  have hd : Dequantize (-1) (TensorQuantizationParams.mk 1 0 32) - 5 = -6 := by
    norm_num [Dequantize]
  rw [hd, abs_of_nonpos (by norm_num)]
  norm_num
